import Mathlib

/-!
Verification of the arclib thread pool core (src/include/arclib/thread.h).

The development embeds two layers of the source:

1. The concurrent part of the thread pool (the work_loop worker body,
   enqueue_job, wait and the running-flag part of terminate) as a small-step
   transition system.  Every step corresponds to one critical section executed
   under the pool mutex; a job body runs with the lock released and is modelled
   by the worker holding the job between the dequeue step and the finish step.
   Condition-variable waits are modelled by guarded steps: a worker may proceed
   past its wait whenever the wait predicate holds (this covers both the
   predicate check performed on arrival at the wait and the spurious wakeups
   the platform permits).
2. The pure scheduling arithmetic of run_in_parallel (chunk-size computation
   and range partitioning) as executable functions on Nat, with the uint64
   operations that can overflow taken modulo 2^64.
3. The worker-array memory management of start/terminate (the part of the pool
   that is sequentially driven from the submitting thread) as a record of the
   fields _num_workers, _workers, _running, _num_jobs plus the external
   counter touched by the scenario jobs of the spec.
-/

namespace Arclib

/-- Modulus of the uint64 arithmetic used by run_in_parallel. -/
def U64 : Nat := 2 ^ 64

/-!
## The thread pool as a transition system

Jobs are identified by natural numbers.  A worker is either at the
condition-variable wait at the top of work_loop, mid-execution of a dequeued
job (lock released), or has exited its loop after observing the cleared
running flag.
-/

/-- Status of one worker thread inside work_loop. -/
inductive WStatus where
  | waiting : WStatus
  | executing : Nat → WStatus
  | exited : WStatus
deriving DecidableEq, Repr

/-- State of the pool protected by the mutex _mtx, together with ghost logs
of all jobs ever enqueued and all jobs that finished executing.
The field numJobs is the counter _num_jobs, queue is _job_queue (front first),
running is _running, and workers lists each worker thread's status. -/
structure PoolState where
  running : Bool
  numJobs : Nat
  queue : List Nat
  workers : List WStatus
  log : List Nat
  submitted : List Nat
deriving DecidableEq, Repr

/-- State right after start(n): n workers spawned, all at their wait,
running flag set, no jobs. -/
def initState (n : Nat) : PoolState :=
  { running := true, numJobs := 0, queue := [], workers := List.replicate n .waiting,
    log := [], submitted := [] }

/-- Jobs currently mid-execution on some worker. -/
def execJobs (ws : List WStatus) : List Nat :=
  ws.filterMap fun w => match w with | .executing j => some j | _ => none

/-- One atomic step of the pool.  Each constructor is one critical section of
the source:
* enqueue: the body of enqueue_job (push job, increment _num_jobs);
* wakeExit: a waiting worker passes the wait because the running flag is
  cleared, takes the else branch of the if and breaks out of the loop;
* wakeDequeue: a waiting worker passes the wait (guard: not running, or
  _num_jobs nonzero; here running is set, so _num_jobs is nonzero), takes the
  if branch and pops the queue head, leaving the critical section to run it;
* finishJob: a worker finishes running its job, reacquires the lock and
  decrements _num_jobs (notifying _cv_wait);
* shutdown: the critical section of terminate that clears the running flag.
The position of the acting worker is encoded by the list split w1 / w2. -/
inductive Step : PoolState → PoolState → Prop where
  | enqueue (j : Nat) (s : PoolState) :
      Step s { s with
               queue := s.queue ++ [j]
               numJobs := s.numJobs + 1
               submitted := s.submitted ++ [j] }
  | wakeExit (w1 w2 : List WStatus) (s : PoolState)
      (hw : s.workers = w1 ++ .waiting :: w2) (hr : s.running = false) :
      Step s { s with workers := w1 ++ .exited :: w2 }
  | wakeDequeue (j : Nat) (q : List Nat) (w1 w2 : List WStatus) (s : PoolState)
      (hw : s.workers = w1 ++ .waiting :: w2) (hr : s.running = true)
      (hn : s.numJobs ≠ 0) (hq : s.queue = j :: q) :
      Step s { s with
               queue := q
               workers := w1 ++ .executing j :: w2 }
  | finishJob (j : Nat) (w1 w2 : List WStatus) (s : PoolState)
      (hw : s.workers = w1 ++ .executing j :: w2) :
      Step s { s with
               workers := w1 ++ .waiting :: w2
               numJobs := s.numJobs - 1
               log := s.log ++ [j] }
  | shutdown (s : PoolState) :
      Step s { s with running := false }

/-- Reachability: finitely many pool steps. -/
abbrev Reach : PoolState → PoolState → Prop := Relation.ReflTransGen Step

/-- Counter invariant of the pool: _num_jobs equals the queue length plus the
number of jobs currently mid-execution. -/
def counterInv (s : PoolState) : Prop :=
  s.numJobs = s.queue.length + (execJobs s.workers).length

/-- Accounting invariant: the multiset of all jobs ever enqueued equals
finished jobs plus mid-execution jobs plus still-queued jobs. -/
def acctInv (s : PoolState) : Prop :=
  (s.submitted : Multiset Nat) =
    (s.log : Multiset Nat) + (execJobs s.workers : Multiset Nat) + (s.queue : Multiset Nat)

/-- The situation in which the assertion at the top of the if branch of
work_loop fires: the pool is running, some worker sits at the wait, the wait
predicate holds because _num_jobs is nonzero, yet the job queue is empty.
Such a worker may pass the wait, take the if branch and evaluate
assert(!_job_queue.empty()) on an empty queue. -/
def assertViolation (s : PoolState) : Prop :=
  s.running = true ∧ s.numJobs ≠ 0 ∧ WStatus.waiting ∈ s.workers ∧ s.queue = []

lemma execJobs_append (l1 l2 : List WStatus) :
    execJobs (l1 ++ l2) = execJobs l1 ++ execJobs l2 := by
  simp [execJobs, List.filterMap_append]

lemma execJobs_waiting_cons (l : List WStatus) :
    execJobs (.waiting :: l) = execJobs l := by
  simp [execJobs]

lemma execJobs_exited_cons (l : List WStatus) :
    execJobs (.exited :: l) = execJobs l := by
  simp [execJobs]

lemma execJobs_executing_cons (j : Nat) (l : List WStatus) :
    execJobs (.executing j :: l) = j :: execJobs l := by
  simp [execJobs]

lemma execJobs_replicate_waiting (n : Nat) :
    execJobs (List.replicate n .waiting) = [] := by
  induction n with
  | zero => rfl
  | succ k ih => simpa [List.replicate_succ, execJobs_waiting_cons] using ih

lemma step_counterInv {s t : PoolState} (h : Step s t) (hs : counterInv s) :
    counterInv t := by
  cases h with
  | enqueue j s =>
    simp only [counterInv] at hs ⊢
    simp only [List.length_append, List.length_cons, List.length_nil]
    omega
  | wakeExit w1 w2 s hw hr =>
    simp only [counterInv] at hs ⊢
    rw [hw] at hs
    simp only [execJobs_append, execJobs_waiting_cons, execJobs_exited_cons] at hs ⊢
    exact hs
  | wakeDequeue j q w1 w2 s hw hr hn hq =>
    simp only [counterInv] at hs ⊢
    rw [hw, hq] at hs
    simp only [execJobs_append, execJobs_waiting_cons, execJobs_executing_cons,
      List.length_append, List.length_cons] at hs ⊢
    omega
  | finishJob j w1 w2 s hw =>
    simp only [counterInv] at hs ⊢
    rw [hw] at hs
    simp only [execJobs_append, execJobs_waiting_cons, execJobs_executing_cons,
      List.length_append, List.length_cons] at hs ⊢
    omega
  | shutdown s =>
    exact hs

lemma step_acctInv {s t : PoolState} (h : Step s t) (hs : acctInv s) :
    acctInv t := by
  cases h with
  | enqueue j s =>
    simp only [acctInv] at hs ⊢
    simp only [← Multiset.coe_add] at hs ⊢
    rw [hs, add_assoc]
  | wakeExit w1 w2 s hw hr =>
    simp only [acctInv] at hs ⊢
    rw [hw] at hs
    simp only [execJobs_append, execJobs_waiting_cons, execJobs_exited_cons] at hs ⊢
    exact hs
  | wakeDequeue j q w1 w2 s hw hr hn hq =>
    simp only [acctInv] at hs ⊢
    rw [hw, hq] at hs
    simp only [execJobs_append, execJobs_waiting_cons, execJobs_executing_cons] at hs ⊢
    rw [hs]
    simp only [← Multiset.cons_coe, ← Multiset.coe_add]
    simp only [← Multiset.singleton_add]
    abel
  | finishJob j w1 w2 s hw =>
    simp only [acctInv] at hs ⊢
    rw [hw] at hs
    simp only [execJobs_append, execJobs_waiting_cons, execJobs_executing_cons] at hs ⊢
    rw [hs]
    simp only [← Multiset.cons_coe, ← Multiset.coe_add, Multiset.coe_nil, Multiset.cons_zero]
    simp only [← Multiset.singleton_add]
    abel
  | shutdown s =>
    exact hs

lemma reach_counterInv {n : Nat} {s : PoolState} (h : Reach (initState n) s) :
    counterInv s := by
  induction h with
  | refl => simp [counterInv, initState, execJobs_replicate_waiting]
  | tail _ hstep ih => exact step_counterInv hstep ih

lemma reach_acctInv {n : Nat} {s : PoolState} (h : Reach (initState n) s) :
    acctInv s := by
  induction h with
  | refl => simp [acctInv, initState, execJobs_replicate_waiting]
  | tail _ hstep ih => exact step_acctInv hstep ih

/-!
## The run_in_parallel scheduling arithmetic

The iterator range [begin, end) is represented by its size
range_size = std::distance(begin, end) and by half-open index chunks
(idx_begin, idx_end) relative to begin; a submitted chunk job visits the
indices of List.range' idx_begin (idx_end - idx_begin).  All uint64 values
are Nat; the two operations whose uint64 overflow is reachable for extreme
arguments (the num_chunks product and the idx_end advance) are taken
modulo 2^64.
-/

/-- Chunk-splitting loop of run_in_parallel: from state (idx_begin, idx_end),
while idx_begin is not range_size, emit the chunk (idx_begin, idx_end) and
advance idx_begin to idx_end and idx_end to
min (idx_end + chunk_size) range_size.  The fuel argument bounds the number
of iterations (the source loop terminates because every iteration advances
idx_begin by at least one when 0 < chunk_size and idx_begin < idx_end ≤
range_size; the callers below pass enough fuel for this). -/
def chunkLoop (fuel range_size chunk_size idx_begin idx_end : Nat) : List (Nat × Nat) :=
  match fuel with
  | 0 => []
  | fuel2 + 1 =>
    if idx_begin = range_size then []
    else
      (idx_begin, idx_end) ::
        chunkLoop fuel2 range_size chunk_size idx_end
          (min ((idx_end + chunk_size) % U64) range_size)

/-- Chunks produced by the splitting loop of run_in_parallel, which starts
from idx_begin = 0 and idx_end = chunk_size. -/
def chunkList (range_size chunk_size : Nat) : List (Nat × Nat) :=
  chunkLoop (range_size + 1) range_size chunk_size 0 chunk_size

/-- Chunk size computed by run_in_parallel: num_chunks is
schedule_factor * pool.num_workers() (uint64 product), chunk_size is
range_size / num_chunks, clamped up to min_chunk_size when smaller.
The source also reassigns num_chunks = range_size / chunk_size in the clamp
branch, but never reads num_chunks afterwards. -/
def computedChunkSize (num_workers range_size schedule_factor min_chunk_size : Nat) : Nat :=
  if range_size / ((schedule_factor * num_workers) % U64) < min_chunk_size
    then min_chunk_size
  else range_size / ((schedule_factor * num_workers) % U64)

/-- Outcome of one call to run_in_parallel, in the order the source decides it:
* assertFail: assert(schedule_factor != 0 && min_chunk_size != 0) fires;
* emptyReturn: range_size == 0, immediate return, nothing submitted;
* divByZero: num_chunks == 0, so range_size / num_chunks divides by zero;
* sequential: range_size <= chunk_size, func applied to the whole range on
  the calling thread, no job enqueued and wait() not called;
* chunked: one job enqueued per listed chunk, then pool.wait(). -/
inductive ParallelPlan where
  | assertFail : ParallelPlan
  | emptyReturn : ParallelPlan
  | divByZero : ParallelPlan
  | sequential : ParallelPlan
  | chunked : List (Nat × Nat) → ParallelPlan
deriving DecidableEq, Repr

/-- Decision structure of run_in_parallel (thread.h lines 238-278) on a pool
with num_workers workers and a range of size range_size. -/
def runInParallelPlan (num_workers range_size schedule_factor min_chunk_size : Nat) :
    ParallelPlan :=
  if schedule_factor = 0 ∨ min_chunk_size = 0 then .assertFail
  else if range_size = 0 then .emptyReturn
  else if (schedule_factor * num_workers) % U64 = 0 then .divByZero
  else if range_size ≤ computedChunkSize num_workers range_size schedule_factor min_chunk_size
    then .sequential
  else .chunked
    (chunkList range_size (computedChunkSize num_workers range_size schedule_factor min_chunk_size))

/-- Indices of the range that get func applied to them, in submission order:
the whole range on the calling thread for the sequential fallback, the
concatenation of the chunk jobs for the chunked path, nothing otherwise. -/
def planIndices (range_size : Nat) : ParallelPlan → List Nat
  | .sequential => List.range range_size
  | .chunked cs => (cs.map fun p => List.range' p.1 (p.2 - p.1)).flatten
  | _ => []

lemma chunkLoop_spec :
    ∀ (fuel rs cs b : Nat), 0 < cs → cs ≤ rs → 2 * rs < U64 → b ≤ rs → rs - b < fuel →
      (((chunkLoop fuel rs cs b (min (b + cs) rs)).map
          fun p => List.range' p.1 (p.2 - p.1)).flatten = List.range' b (rs - b))
      ∧ (∀ p ∈ chunkLoop fuel rs cs b (min (b + cs) rs),
          p.1 < p.2 ∧ p.2 = min (p.1 + cs) rs)
      ∧ List.Chain' (fun p q : Nat × Nat => p.2 = q.1)
          (chunkLoop fuel rs cs b (min (b + cs) rs))
      ∧ (∀ p ∈ (chunkLoop fuel rs cs b (min (b + cs) rs)).head?, p.1 = b) := by
  intro fuel
  induction fuel with
  | zero => intro rs cs b _ _ _ _ hfuel; omega
  | succ fuel2 ih =>
    intro rs cs b hcs hcr hrs hb hfuel
    by_cases hbr : b = rs
    · subst hbr
      simp [chunkLoop]
    · have hblt : b < rs := lt_of_le_of_ne hb hbr
      have hmod : (min (b + cs) rs + cs) % U64 = min (b + cs) rs + cs :=
        Nat.mod_eq_of_lt (by omega)
      have hrec := ih rs cs (min (b + cs) rs) hcs hcr hrs (by omega) (by omega)
      simp only [chunkLoop, if_neg hbr, hmod]
      refine ⟨?_, ?_, ?_, ?_⟩
      · simp only [List.map_cons, List.flatten_cons, hrec.1]
        have h1 := List.range'_append b (min (b + cs) rs - b) (rs - min (b + cs) rs) 1
        rw [show b + 1 * (min (b + cs) rs - b) = min (b + cs) rs from by omega] at h1
        rw [show rs - min (b + cs) rs + (min (b + cs) rs - b) = rs - b from by omega] at h1
        exact h1
      · intro p hp
        rcases List.mem_cons.mp hp with h | h
        · subst h
          exact ⟨by omega, rfl⟩
        · exact hrec.2.1 p h
      · rw [List.chain'_cons']
        exact ⟨fun y hy => (hrec.2.2.2 y hy).symm, hrec.2.2.1⟩
      · intro p hp
        simp only [List.head?_cons, Option.mem_def, Option.some.injEq] at hp
        rw [← hp]

lemma chunkList_spec (rs cs : Nat) (hcs : 0 < cs) (hlt : cs < rs) (hrs : 2 * rs < U64) :
    (((chunkList rs cs).map fun p => List.range' p.1 (p.2 - p.1)).flatten =
        List.range' 0 rs)
    ∧ (∀ p ∈ chunkList rs cs, p.1 < p.2 ∧ p.2 = min (p.1 + cs) rs)
    ∧ List.Chain' (fun p q : Nat × Nat => p.2 = q.1) (chunkList rs cs)
    ∧ (∀ p ∈ (chunkList rs cs).head?, p.1 = 0) := by
  have hmin : min (0 + cs) rs = cs := by omega
  have h := chunkLoop_spec (rs + 1) rs cs 0 hcs (by omega) hrs (by omega) (by omega)
  rw [hmin] at h
  simpa [chunkList] using h

/-!
## Further facts about the transition system
-/

lemma step_running_stays_false {s t : PoolState} (h : Step s t) (hr : s.running = false) :
    t.running = false := by
  cases h with
  | enqueue j s => exact hr
  | wakeExit w1 w2 s hw hr2 => exact hr
  | wakeDequeue j q w1 w2 s hw hr2 hn hq => exact Bool.noConfusion (hr2.symm.trans hr)
  | finishJob j w1 w2 s hw => exact hr
  | shutdown s => rfl

lemma reach_running_stays_false {s t : PoolState} (h : Reach s t) (hr : s.running = false) :
    t.running = false := by
  induction h with
  | refl => exact hr
  | tail _ hstep ih => exact step_running_stays_false hstep ih

/-- Once the running flag is cleared, no step removes anything from the queue:
wakeDequeue requires the flag, so the queue can only be extended at the back
by further enqueue calls. -/
lemma step_queue_extends {s t : PoolState} (h : Step s t) (hr : s.running = false) :
    ∃ r, t.queue = s.queue ++ r := by
  cases h with
  | enqueue j s => exact ⟨[j], rfl⟩
  | wakeExit w1 w2 s hw hr2 => exact ⟨[], (List.append_nil _).symm⟩
  | wakeDequeue j q w1 w2 s hw hr2 hn hq => exact Bool.noConfusion (hr2.symm.trans hr)
  | finishJob j w1 w2 s hw => exact ⟨[], (List.append_nil _).symm⟩
  | shutdown s => exact ⟨[], (List.append_nil _).symm⟩

lemma reach_queue_extends {s t : PoolState} (h : Reach s t) (hr : s.running = false) :
    ∃ r, t.queue = s.queue ++ r := by
  induction h with
  | refl => exact ⟨[], (List.append_nil _).symm⟩
  | tail hab hstep ih =>
    obtain ⟨r1, h1⟩ := ih
    obtain ⟨r2, h2⟩ := step_queue_extends hstep (reach_running_stays_false hab hr)
    exact ⟨r1 ++ r2, by rw [h2, h1, List.append_assoc]⟩

/-!
## Claim theorems about the pool transition system
-/

/-- Claim C1 (recorded as a bug in the code, with this theorem evaluating the
code at the failing input): the claim states that whenever a Running worker
proceeds past its wait, the job queue is non-empty, so that the work_loop
assertion assert(!_job_queue.empty()) always holds.  The code violates this:
starting from a two-worker pool, after one job is enqueued and worker 0 has
dequeued it and is executing it (so _num_jobs is still 1), worker 1 arrives at
its wait, finds the wake predicate true (the pool runs and _num_jobs != 0),
passes the wait with the queue empty, and the assertion fires. -/
theorem work_loop_assert_empty_queue_reachable :
    ∃ s : PoolState, Reach (initState 2) s ∧ assertViolation s := by
  refine ⟨{ running := true, numJobs := 1, queue := [],
            workers := [.executing 0, .waiting], log := [], submitted := [0] },
          ?_, rfl, by decide, by decide, rfl⟩
  exact Relation.ReflTransGen.tail
    (Relation.ReflTransGen.single (Step.enqueue 0 (initState 2)))
    (Step.wakeDequeue 0 [] [] [.waiting] _ rfl rfl (by decide) rfl)

/-- Claim C5: in every reachable pool state, the length of the job queue plus
the number of jobs currently mid-execution equals the outstanding-job counter
_num_jobs (the counter is incremented by the enqueue step and decremented only
by the finish step, never by the dequeue step). -/
theorem pool_counter_invariant (n : Nat) (s : PoolState) (h : Reach (initState n) s) :
    s.numJobs = s.queue.length + (execJobs s.workers).length :=
  reach_counterInv h

/-- Witness for pool_counter_invariant: the state of a two-worker pool after
one enqueue is reachable and satisfies the invariant. -/
theorem pool_counter_invariant_witness :
    Reach (initState 2)
      { running := true, numJobs := 1, queue := [5], workers := [.waiting, .waiting],
        log := [], submitted := [5] } ∧
    (1 : Nat) = [(5 : Nat)].length +
      (execJobs [WStatus.waiting, WStatus.waiting]).length := by
  have hreach : Reach (initState 2)
      { running := true, numJobs := 1, queue := [5], workers := [.waiting, .waiting],
        log := [], submitted := [5] } :=
    Relation.ReflTransGen.single (Step.enqueue 5 (initState 2))
  exact ⟨hreach, pool_counter_invariant 2 _ hreach⟩

/-- Claim C3: if terminate() is called while jobs are still queued (the
running flag is cleared with a non-empty queue), then along every possible
continuation the queued jobs stay in the queue forever (they are never
dequeued, hence never execute: workers woken in the draining state exit
without consuming queued jobs), and the outstanding-job counter _num_jobs
never returns to zero, so a concurrent wait() call, which blocks until
_num_jobs == 0, blocks forever. -/
theorem terminate_discards_queued_jobs (n : Nat) (s t : PoolState)
    (hs : Reach (initState n) s) (hr : s.running = false) (hq : s.queue ≠ [])
    (ht : Reach s t) :
    (∃ r, t.queue = s.queue ++ r) ∧ t.numJobs ≠ 0 := by
  obtain ⟨r, hext⟩ := reach_queue_extends ht hr
  refine ⟨⟨r, hext⟩, ?_⟩
  have hinv := reach_counterInv (hs.trans ht)
  simp only [counterInv] at hinv
  have hlen : 0 < s.queue.length := List.length_pos.mpr hq
  have hlen2 : s.queue.length ≤ t.queue.length := by
    rw [hext, List.length_append]
    omega
  omega

/-- Witness for terminate_discards_queued_jobs: a one-worker pool that
enqueued job 7 and then had terminate clear the running flag. -/
theorem terminate_discards_queued_jobs_witness :
    Reach (initState 1)
      { running := false, numJobs := 1, queue := [7], workers := [.waiting],
        log := [], submitted := [7] } ∧
    (({ running := false, numJobs := 1, queue := [7], workers := [.waiting],
        log := [], submitted := [7] } : PoolState).running = false) ∧
    (({ running := false, numJobs := 1, queue := [7], workers := [.waiting],
        log := [], submitted := [7] } : PoolState).queue ≠ []) ∧
    ((∃ r, ([7] : List Nat) = [7] ++ r) ∧ (1 : Nat) ≠ 0) := by
  have h1 : Reach (initState 1)
      { running := false, numJobs := 1, queue := [7], workers := [.waiting],
        log := [], submitted := [7] } :=
    Relation.ReflTransGen.tail
      (Relation.ReflTransGen.single (Step.enqueue 7 (initState 1)))
      (Step.shutdown _)
  exact ⟨h1, rfl, by decide,
    terminate_discards_queued_jobs 1 _ _ h1 rfl (by decide) Relation.ReflTransGen.refl⟩

/-!
## Claim theorems about run_in_parallel
-/

lemma computedChunkSize_pos (nw M sf mcs : Nat) (hmcs : mcs ≠ 0) :
    0 < computedChunkSize nw M sf mcs := by
  unfold computedChunkSize
  split
  · omega
  · omega

lemma count_range_eq (M i : Nat) :
    (List.range M).count i = if i < M then 1 else 0 := by
  by_cases h : i < M
  · rw [if_pos h]
    exact List.count_eq_one_of_mem (List.nodup_range M) (List.mem_range.mpr h)
  · rw [if_neg h]
    exact List.count_eq_zero.mpr fun hc => h (List.mem_range.mp hc)

/-- In every non-degenerate call (nonzero parameters, at least one worker,
arguments small enough that the uint64 arithmetic does not wrap), the indices
that run_in_parallel applies func to are exactly 0, ..., range_size - 1 in
order, whether the sequential fallback or the chunked path is taken. -/
lemma planIndices_eq_range (nw M sf mcs : Nat) (hsf : sf ≠ 0) (hmcs : mcs ≠ 0)
    (hnw : nw ≠ 0) (hprod : sf * nw < U64) (hM : 2 * M < U64) :
    planIndices M (runInParallelPlan nw M sf mcs) = List.range M := by
  by_cases hM0 : M = 0
  · subst hM0
    simp [runInParallelPlan, planIndices, hsf, hmcs]
  · have hncz : (sf * nw) % U64 ≠ 0 := by
      rw [Nat.mod_eq_of_lt hprod]
      exact Nat.mul_ne_zero hsf hnw
    unfold runInParallelPlan
    rw [if_neg (by tauto), if_neg hM0, if_neg hncz]
    by_cases hseq : M ≤ computedChunkSize nw M sf mcs
    · rw [if_pos hseq]
      rfl
    · rw [if_neg hseq]
      simp only [planIndices]
      rw [(chunkList_spec M (computedChunkSize nw M sf mcs)
        (computedChunkSize_pos nw M sf mcs hmcs) (by omega) hM).1]
      rw [List.range_eq_range']

/-- Claim C2: on a pool with at least one worker and nonzero scheduling
parameters (wrap-free uint64 arguments), run_in_parallel visits every index
of [0, range_size) exactly once and no index outside it; for an empty range
it returns immediately with nothing submitted; and wait(), which returns only
when _num_jobs is zero, can only return once every submitted job has finished
executing (the submitted and finished ghost logs agree up to permutation in
any reachable state with a zero counter). -/
theorem run_in_parallel_coverage (nw M sf mcs : Nat) (hsf : sf ≠ 0) (hmcs : mcs ≠ 0)
    (hnw : nw ≠ 0) (hprod : sf * nw < U64) (hM : 2 * M < U64) :
    (∀ i : Nat, (planIndices M (runInParallelPlan nw M sf mcs)).count i =
        if i < M then 1 else 0)
    ∧ (M = 0 → runInParallelPlan nw M sf mcs = ParallelPlan.emptyReturn)
    ∧ (∀ (n : Nat) (s : PoolState), Reach (initState n) s → s.numJobs = 0 →
        List.Perm s.submitted s.log) := by
  refine ⟨?_, ?_, ?_⟩
  · intro i
    rw [planIndices_eq_range nw M sf mcs hsf hmcs hnw hprod hM]
    exact count_range_eq M i
  · intro hM0
    simp [runInParallelPlan, hsf, hmcs, hM0]
  · intro n s hreach hz
    have hcnt := reach_counterInv hreach
    simp only [counterInv] at hcnt
    have hacct := reach_acctInv hreach
    simp only [acctInv] at hacct
    have hq : s.queue = [] := List.eq_nil_of_length_eq_zero (by omega)
    have he : execJobs s.workers = [] := List.eq_nil_of_length_eq_zero (by omega)
    rw [hq, he] at hacct
    simp only [Multiset.coe_nil, add_zero] at hacct
    exact Multiset.coe_eq_coe.mp hacct

/-- Witness for run_in_parallel_coverage at nw = 2, M = 10, sf = 1, mcs = 1. -/
theorem run_in_parallel_coverage_witness :
    ((1 : Nat) ≠ 0) ∧ ((2 : Nat) ≠ 0) ∧ 1 * 2 < U64 ∧ 2 * 10 < U64 ∧
    ((∀ i : Nat, (planIndices 10 (runInParallelPlan 2 10 1 1)).count i =
        if i < 10 then 1 else 0)
      ∧ ((10 : Nat) = 0 → runInParallelPlan 2 10 1 1 = ParallelPlan.emptyReturn)
      ∧ (∀ (n : Nat) (s : PoolState), Reach (initState n) s → s.numJobs = 0 →
          List.Perm s.submitted s.log)) := by
  refine ⟨by decide, by decide, by norm_num [U64], by norm_num [U64], ?_⟩
  exact run_in_parallel_coverage 2 10 1 1 (by decide) (by decide) (by decide)
    (by norm_num [U64]) (by norm_num [U64])

/-- Claim C6: for a non-empty range larger than the computed chunk size, the
partitioner takes one job per chunk: the plan is chunked over chunkList, the
chunk size is range_size / (schedule_factor * worker_count) clamped up to
min_chunk_size, every chunk is a non-empty half-open interval of length
exactly chunk_size except that a chunk reaching range_size is truncated there,
consecutive chunks are contiguous, and together the chunks cover [0,
range_size) with every index appearing exactly once. -/
theorem run_in_parallel_partition (nw M sf mcs : Nat) (hsf : sf ≠ 0) (hmcs : mcs ≠ 0)
    (hprod : sf * nw < U64) (hnw : nw ≠ 0) (hM : 2 * M < U64) (hM0 : M ≠ 0)
    (hgt : computedChunkSize nw M sf mcs < M) :
    runInParallelPlan nw M sf mcs =
      ParallelPlan.chunked (chunkList M (computedChunkSize nw M sf mcs))
    ∧ computedChunkSize nw M sf mcs =
        (if M / (sf * nw) < mcs then mcs else M / (sf * nw))
    ∧ (∀ p ∈ chunkList M (computedChunkSize nw M sf mcs),
        p.1 < p.2 ∧ p.2 = min (p.1 + computedChunkSize nw M sf mcs) M)
    ∧ List.Chain' (fun p q : Nat × Nat => p.2 = q.1)
        (chunkList M (computedChunkSize nw M sf mcs))
    ∧ ((chunkList M (computedChunkSize nw M sf mcs)).map
        fun p => List.range' p.1 (p.2 - p.1)).flatten = List.range' 0 M := by
  have hncz : (sf * nw) % U64 ≠ 0 := by
    rw [Nat.mod_eq_of_lt hprod]
    exact Nat.mul_ne_zero hsf hnw
  have hspec := chunkList_spec M (computedChunkSize nw M sf mcs)
    (computedChunkSize_pos nw M sf mcs hmcs) hgt hM
  refine ⟨?_, ?_, hspec.2.1, hspec.2.2.1, hspec.1⟩
  · unfold runInParallelPlan
    rw [if_neg (by tauto), if_neg hM0, if_neg hncz, if_neg (by omega)]
  · unfold computedChunkSize
    rw [Nat.mod_eq_of_lt hprod]

/-- Witness for run_in_parallel_partition at nw = 2, M = 10, sf = 1, mcs = 1:
chunk size 5, two chunks. -/
theorem run_in_parallel_partition_witness :
    ((1 : Nat) ≠ 0) ∧ 1 * 2 < U64 ∧ ((2 : Nat) ≠ 0) ∧ 2 * 10 < U64 ∧
    ((10 : Nat) ≠ 0) ∧ computedChunkSize 2 10 1 1 < 10 ∧
    (runInParallelPlan 2 10 1 1 =
        ParallelPlan.chunked (chunkList 10 (computedChunkSize 2 10 1 1))
      ∧ computedChunkSize 2 10 1 1 = (if 10 / (1 * 2) < 1 then 1 else 10 / (1 * 2))
      ∧ (∀ p ∈ chunkList 10 (computedChunkSize 2 10 1 1),
          p.1 < p.2 ∧ p.2 = min (p.1 + computedChunkSize 2 10 1 1) 10)
      ∧ List.Chain' (fun p q : Nat × Nat => p.2 = q.1)
          (chunkList 10 (computedChunkSize 2 10 1 1))
      ∧ ((chunkList 10 (computedChunkSize 2 10 1 1)).map
          fun p => List.range' p.1 (p.2 - p.1)).flatten = List.range' 0 10) := by
  refine ⟨by decide, by norm_num [U64], by decide, by norm_num [U64], by decide,
    ?_, ?_⟩
  · show computedChunkSize 2 10 1 1 < 10
    norm_num [computedChunkSize, U64]
  · exact run_in_parallel_partition 2 10 1 1 (by decide) (by decide)
      (by norm_num [U64]) (by decide) (by norm_num [U64]) (by decide)
      (by norm_num [computedChunkSize, U64])

/-- Claim C7: when the range is non-empty but no larger than the computed
chunk size, run_in_parallel takes the sequential fallback: func runs on every
element on the calling thread (indices 0, ..., range_size - 1 in order) and
the pool is not involved: no job is enqueued and wait() is not called. -/
theorem run_in_parallel_sequential_fallback (nw M sf mcs : Nat) (hsf : sf ≠ 0)
    (hmcs : mcs ≠ 0) (hM0 : M ≠ 0) (hnc : (sf * nw) % U64 ≠ 0)
    (hle : M ≤ computedChunkSize nw M sf mcs) :
    runInParallelPlan nw M sf mcs = ParallelPlan.sequential ∧
    planIndices M (runInParallelPlan nw M sf mcs) = List.range M := by
  have h1 : runInParallelPlan nw M sf mcs = ParallelPlan.sequential := by
    unfold runInParallelPlan
    rw [if_neg (by tauto), if_neg hM0, if_neg hnc, if_pos hle]
  refine ⟨h1, ?_⟩
  rw [h1]
  rfl

/-- Witness for run_in_parallel_sequential_fallback at nw = 4, M = 3, sf = 1,
mcs = 8: the clamp raises the chunk size to 8, so the 3-element range fits in
a single chunk and runs inline. -/
theorem run_in_parallel_sequential_fallback_witness :
    ((1 : Nat) ≠ 0) ∧ ((8 : Nat) ≠ 0) ∧ ((3 : Nat) ≠ 0) ∧ (1 * 4) % U64 ≠ 0 ∧
    3 ≤ computedChunkSize 4 3 1 8 ∧
    (runInParallelPlan 4 3 1 8 = ParallelPlan.sequential ∧
      planIndices 3 (runInParallelPlan 4 3 1 8) = List.range 3) := by
  refine ⟨by decide, by decide, by decide, by norm_num [U64], ?_, ?_⟩
  · show 3 ≤ computedChunkSize 4 3 1 8
    norm_num [computedChunkSize, U64]
  · exact run_in_parallel_sequential_fallback 4 3 1 8 (by decide) (by decide)
      (by decide) (by norm_num [U64]) (by norm_num [computedChunkSize, U64])

/-- Claim C8: a zero schedule_factor or a zero min_chunk_size makes
run_in_parallel fail its assertion before any range-size computation,
partitioning or job submission happens, for every pool and range. -/
theorem run_in_parallel_assert_zero_params (nw M sf mcs : Nat)
    (h : sf = 0 ∨ mcs = 0) :
    runInParallelPlan nw M sf mcs = ParallelPlan.assertFail := by
  unfold runInParallelPlan
  rw [if_pos h]

/-- Witness for run_in_parallel_assert_zero_params at nw = 4, M = 10, sf = 0,
mcs = 1. -/
theorem run_in_parallel_assert_zero_params_witness :
    ((0 : Nat) = 0 ∨ (1 : Nat) = 0) ∧
    runInParallelPlan 4 10 0 1 = ParallelPlan.assertFail :=
  ⟨Or.inl rfl, run_in_parallel_assert_zero_params 4 10 0 1 (Or.inl rfl)⟩

/-- Claim C10: on a pool whose num_workers() is zero, every run_in_parallel
call with a non-empty range and valid (nonzero) parameters reaches the
division range_size / num_chunks with num_chunks = schedule_factor * 0 = 0:
the division-by-zero branch is taken, with no guard in the source. -/
theorem run_in_parallel_zero_workers_div_by_zero (M sf mcs : Nat) (hsf : sf ≠ 0)
    (hmcs : mcs ≠ 0) (hM0 : M ≠ 0) :
    runInParallelPlan 0 M sf mcs = ParallelPlan.divByZero := by
  unfold runInParallelPlan
  rw [if_neg (by tauto), if_neg hM0, if_pos (by simp)]

/-- Witness for run_in_parallel_zero_workers_div_by_zero at M = 5, sf = 1,
mcs = 1. -/
theorem run_in_parallel_zero_workers_div_by_zero_witness :
    ((1 : Nat) ≠ 0) ∧ ((5 : Nat) ≠ 0) ∧
    runInParallelPlan 0 5 1 1 = ParallelPlan.divByZero :=
  ⟨by decide, by decide,
    run_in_parallel_zero_workers_div_by_zero 5 1 1 (by decide) (by decide) (by decide)⟩

/-!
## Sequential model of the pool lifecycle driven from the submitting thread

This model covers the worker-array management that the transition system
above abstracts away: the fields _num_workers and _workers (represented by
the flag workers_alloc, true while the array pointer is non-null), together
with _running and _num_jobs.  It is used for the scenario claims in which
every job increments one external counter, so the queue is summarised by
_num_jobs and the counter value.  Operations that can fail to return (a
wait() that blocks forever) or that hit undefined behaviour (joining through
a null worker-array pointer) return none.
-/

/-- Snapshot of the pool members driven sequentially from the main thread,
plus the external counter incremented by the scenario jobs. -/
structure SeqPool where
  num_workers : Nat
  workers_alloc : Bool
  running : Bool
  num_jobs : Nat
  counter : Nat
deriving DecidableEq, Repr

/-- Default-constructed pool: _num_workers(0), _num_jobs(0),
_workers(nullptr), _running(false). -/
def seqPoolInit : SeqPool :=
  { num_workers := 0, workers_alloc := false, running := false, num_jobs := 0,
    counter := 0 }

/-- start(n): sets _num_workers = n, allocates the worker array, spawns the
workers and sets _running = true. -/
def seqStart (n : Nat) (p : SeqPool) : SeqPool :=
  { p with num_workers := n, workers_alloc := true, running := true }

/-- enqueue_job with a job that increments the external counter: pushes the
job and increments _num_jobs. -/
def seqEnqueueInc (p : SeqPool) : SeqPool :=
  { p with num_jobs := p.num_jobs + 1 }

/-- wait(): blocks until _num_jobs == 0.  On a running pool with at least one
worker the workers drain every outstanding job (each one increments the
counter exactly once, by the coverage and accounting theorems on the
transition system above) and wait returns; with jobs outstanding but nobody
to run them, wait never returns (none). -/
def seqWait (p : SeqPool) : Option SeqPool :=
  if p.num_jobs = 0 then some p
  else if p.running ∧ p.num_workers ≠ 0 then
    some { p with counter := p.counter + p.num_jobs, num_jobs := 0 }
  else none

/-- terminate(): clears _running, notifies all workers, then joins
_workers[i] for i in [0, _num_workers) and frees the array, setting _workers
to nullptr.  The join loop dereferences the array pointer whenever
_num_workers is nonzero, which is undefined behaviour (none) when the array
was already freed and nulled; _num_workers itself is never reset. -/
def seqTerminate (p : SeqPool) : Option SeqPool :=
  if p.num_workers ≠ 0 ∧ p.workers_alloc = false then none
  else some { p with running := false, workers_alloc := false }

/-- Claim C4 (recorded as a bug in the code, with this theorem evaluating the
code at the failing input): the claim states that after a first terminate()
has joined and freed the workers, a later terminate() on the same pool (for
example from the destructor after an explicit finish or terminate) observes
an empty worker set and no-ops.  In the code the first terminate() frees the
worker array and nulls _workers but leaves _num_workers untouched, so the
second call runs the join loop _num_workers times over a null pointer. -/
theorem terminate_second_call_null_deref :
    seqTerminate (seqStart 1 seqPoolInit) =
      some { num_workers := 1, workers_alloc := false, running := false,
             num_jobs := 0, counter := 0 } ∧
    seqTerminate { num_workers := 1, workers_alloc := false, running := false,
                   num_jobs := 0, counter := 0 } = none := by
  exact ⟨by decide, by decide⟩

/-- Claim C9 counterexample: in the spec scenario (start, ten
counter-incrementing jobs, wait() returning with counter = 10, then
terminate()), the worker-count accessor num_workers() afterwards returns the
count set by start (here 2), not 0: terminate never resets _num_workers. -/
theorem scenario_num_workers_after_terminate_counterexample :
    seqWait (seqEnqueueInc^[10] (seqStart 2 seqPoolInit)) =
      some { num_workers := 2, workers_alloc := true, running := true,
             num_jobs := 0, counter := 10 } ∧
    seqTerminate { num_workers := 2, workers_alloc := true, running := true,
                   num_jobs := 0, counter := 10 } =
      some { num_workers := 2, workers_alloc := false, running := false,
             num_jobs := 0, counter := 10 } ∧
    ({ num_workers := 2, workers_alloc := false, running := false,
       num_jobs := 0, counter := 10 } : SeqPool).num_workers ≠ 0 := by
  exact ⟨by decide, by decide, by decide⟩

/-- Claim C9 as amended: the scenario runs as the spec describes up to and
including wait() (the counter reaches 10 and _num_jobs returns to 0) and
terminate() succeeds, but afterwards num_workers() reports the worker count
fixed at start (2 here), because terminate never resets _num_workers. -/
theorem scenario_wait_counter_ten_then_terminate :
    (seqWait (seqEnqueueInc^[10] (seqStart 2 seqPoolInit))).bind seqTerminate =
      some { num_workers := 2, workers_alloc := false, running := false,
             num_jobs := 0, counter := 10 } ∧
    ({ num_workers := 2, workers_alloc := false, running := false,
       num_jobs := 0, counter := 10 } : SeqPool).counter = 10 ∧
    ({ num_workers := 2, workers_alloc := false, running := false,
       num_jobs := 0, counter := 10 } : SeqPool).num_workers = 2 := by
  exact ⟨by decide, rfl, rfl⟩

end Arclib
